import Mathlib

/-!
Verification development for the `multivectors` module: an 8-component
multivector type for the geometric algebra Cl(3,0), with the geometric
product driven by a precomputed 8x8 signed Cayley (metric) table, and
rotor-based rotation.

The Python code stores components as doubles; the embedding idealises the
scalars as elements of a commutative ring. The trigonometric operations
(`rotor`, `rotate`) are instantiated at the real numbers.
-/

set_option linter.unusedSectionVars false

namespace MultiVectors

/-- The multivector value type: scalar, vector (x,y,z), pseudovector
(axial, x,y,z) and pseudoscalar components, mirroring the eight slots of
the Python class's `comp` array in order. -/
structure MultiVector (R : Type) where
  real : R
  vecx : R
  vecy : R
  vecz : R
  axix : R
  axiy : R
  axiz : R
  imag : R

variable {R : Type} [CommRing R]

/-- Component lookup at a valid index 0..7, in the storage order of the
Python `comp` array. -/
def MultiVector.comp (m : MultiVector R) : Fin 8 → R
  | 0 => m.real
  | 1 => m.vecx
  | 2 => m.vecy
  | 3 => m.vecz
  | 4 => m.axix
  | 5 => m.axiy
  | 6 => m.axiz
  | 7 => m.imag

/-- Build a multivector from a component function (the Python
`MultiVector(*[...])` splat over eight listed values). -/
def mkMV (c : Fin 8 → R) : MultiVector R :=
  ⟨c 0, c 1, c 2, c 3, c 4, c 5, c 6, c 7⟩

/-- Python `__neg__`: component-wise negation. -/
def negMV (m : MultiVector R) : MultiVector R :=
  ⟨-m.real, -m.vecx, -m.vecy, -m.vecz, -m.axix, -m.axiy, -m.axiz, -m.imag⟩

/-- Python `__add__`: component-wise sum. -/
def addMV (a b : MultiVector R) : MultiVector R :=
  ⟨a.real + b.real, a.vecx + b.vecx, a.vecy + b.vecy, a.vecz + b.vecz,
   a.axix + b.axix, a.axiy + b.axiy, a.axiz + b.axiz, a.imag + b.imag⟩

/-- The scalar branch of `__mul__`: each component of the multivector
multiplied by a scalar on the right. -/
def smulMV (m : MultiVector R) (s : R) : MultiVector R :=
  ⟨m.real * s, m.vecx * s, m.vecy * s, m.vecz * s,
   m.axix * s, m.axiy * s, m.axiz * s, m.imag * s⟩

/-- The module-level `ZERO` constant. -/
def ZERO : MultiVector R := ⟨0, 0, 0, 0, 0, 0, 0, 0⟩

/-- The unit scalar basis multivector `ONE`. -/
def ONE : MultiVector R := ⟨1, 0, 0, 0, 0, 0, 0, 0⟩

/-- The unit vector basis multivector `VECX`. -/
def VECX : MultiVector R := ⟨0, 1, 0, 0, 0, 0, 0, 0⟩

/-- The unit vector basis multivector `VECY`. -/
def VECY : MultiVector R := ⟨0, 0, 1, 0, 0, 0, 0, 0⟩

/-- The unit vector basis multivector `VECZ`. -/
def VECZ : MultiVector R := ⟨0, 0, 0, 1, 0, 0, 0, 0⟩

/-- The unit pseudovector basis multivector `AXIX`. -/
def AXIX : MultiVector R := ⟨0, 0, 0, 0, 1, 0, 0, 0⟩

/-- The unit pseudovector basis multivector `AXIY`. -/
def AXIY : MultiVector R := ⟨0, 0, 0, 0, 0, 1, 0, 0⟩

/-- The unit pseudovector basis multivector `AXIZ`. -/
def AXIZ : MultiVector R := ⟨0, 0, 0, 0, 0, 0, 1, 0⟩

/-- The unit pseudoscalar basis multivector `IMAG`. -/
def IMAG : MultiVector R := ⟨0, 0, 0, 0, 0, 0, 0, 1⟩

/-- The process-wide metric table `METRIC[j][k]`, transcribed row by row
from the module-level `METRIC` list literal: the signed basis multivector
that is the geometric product of basis element `j` with basis element `k`. -/
def METRIC : Fin 8 → Fin 8 → MultiVector R
  | 0, 0 => ONE
  | 0, 1 => VECX
  | 0, 2 => VECY
  | 0, 3 => VECZ
  | 0, 4 => AXIX
  | 0, 5 => AXIY
  | 0, 6 => AXIZ
  | 0, 7 => IMAG
  | 1, 0 => VECX
  | 1, 1 => ONE
  | 1, 2 => AXIX
  | 1, 3 => negMV AXIZ
  | 1, 4 => VECY
  | 1, 5 => IMAG
  | 1, 6 => negMV VECZ
  | 1, 7 => AXIY
  | 2, 0 => VECY
  | 2, 1 => negMV AXIX
  | 2, 2 => ONE
  | 2, 3 => AXIY
  | 2, 4 => negMV VECX
  | 2, 5 => VECZ
  | 2, 6 => IMAG
  | 2, 7 => AXIZ
  | 3, 0 => VECZ
  | 3, 1 => AXIZ
  | 3, 2 => negMV AXIY
  | 3, 3 => ONE
  | 3, 4 => IMAG
  | 3, 5 => negMV VECY
  | 3, 6 => VECX
  | 3, 7 => AXIX
  | 4, 0 => AXIX
  | 4, 1 => negMV VECY
  | 4, 2 => VECX
  | 4, 3 => IMAG
  | 4, 4 => negMV ONE
  | 4, 5 => negMV AXIZ
  | 4, 6 => AXIY
  | 4, 7 => negMV VECZ
  | 5, 0 => AXIY
  | 5, 1 => IMAG
  | 5, 2 => negMV VECZ
  | 5, 3 => VECY
  | 5, 4 => AXIZ
  | 5, 5 => negMV ONE
  | 5, 6 => negMV AXIX
  | 5, 7 => negMV VECX
  | 6, 0 => AXIZ
  | 6, 1 => VECZ
  | 6, 2 => IMAG
  | 6, 3 => negMV VECX
  | 6, 4 => negMV AXIY
  | 6, 5 => AXIX
  | 6, 6 => negMV ONE
  | 6, 7 => negMV VECY
  | 7, 0 => IMAG
  | 7, 1 => AXIY
  | 7, 2 => AXIZ
  | 7, 3 => AXIX
  | 7, 4 => negMV VECZ
  | 7, 5 => negMV VECX
  | 7, 6 => negMV VECY
  | 7, 7 => negMV ONE

/-- Sum of a function over the index list 0..7, mirroring
`sum([... for _ in range(8)])` in the source. -/
def sum8 (f : Fin 8 → R) : R :=
  (([0, 1, 2, 3, 4, 5, 6, 7] : List (Fin 8)).map f).sum

/-- The multivector branch of `__mul__`: the geometric product. Component
`i` of the result is the double sum over `j` then `k` of
`self[j] * other[k] * METRIC[j][k][i]`, exactly as in the source's nested
comprehension. -/
def mul (a b : MultiVector R) : MultiVector R :=
  mkMV (fun i => sum8 (fun j => sum8 (fun k =>
    a.comp j * b.comp k * (METRIC j k).comp i)))

/-- The right-operand values `__mul__` can face at runtime: another
multivector, a numeric scalar, or anything else. -/
inductive Operand (R : Type) where
  | mv (m : MultiVector R)
  | scalar (s : R)
  | other

/-- The full dynamic dispatch of `__mul__`: geometric product for a
multivector operand, component-wise scaling for a numeric operand, and a
failure result (`return None`, the UnsupportedOperand condition) for
anything else. -/
def mulPoly (a : MultiVector R) : Operand R → Option (MultiVector R)
  | Operand.mv b => some (mul a b)
  | Operand.scalar s => some (smulMV a s)
  | Operand.other => none

/-- Method `linear_combination`: when the system and the component sequences have
the same length, the sum of `c * v` over the zipped pairs starting from
`ZERO` (Python's `sum(..., MultiVector.ZERO)` folds from the left);
otherwise the failure result `None` (the LengthMismatch condition). -/
def linear_combination (system : List (MultiVector R)) (comps : List R) :
    Option (MultiVector R) :=
  if system.length = comps.length then
    some (((comps.zip system).map (fun p => smulMV p.2 p.1)).foldl addMV ZERO)
  else none

/-- Method `get_vector`: a multivector with only the vector components set. -/
def get_vector (x y z : R) : MultiVector R := ⟨0, x, y, z, 0, 0, 0, 0⟩

/-- Method `get_axis`: a multivector with only the pseudovector components set. -/
def get_axis (x y z : R) : MultiVector R := ⟨0, 0, 0, 0, x, y, z, 0⟩

/-- The module-level `VECTOR_BASIS` frame. -/
def VECTOR_BASIS : List (MultiVector R) := [VECX, VECY, VECZ]

/-- Method `rotor2`: builds the rotor from a precomputed cosine and sine:
scalar component `theta_cos`, pseudovector components
`axis[4] * theta_sin`, `axis[5] * theta_sin`, `axis[6] * theta_sin`. -/
def rotor2 (axis : MultiVector R) (theta_cos theta_sin : R) : MultiVector R :=
  ⟨theta_cos, 0, 0, 0, axis.comp 4 * theta_sin, axis.comp 5 * theta_sin,
   axis.comp 6 * theta_sin, 0⟩

/-- Method `rotate3`: applies precomputed left/right rotors, `(l_rot * self) * r_rot`. -/
def rotate3 (self l_rot r_rot : MultiVector R) : MultiVector R :=
  mul (mul l_rot self) r_rot

/-- Method `rotate2`: builds the two rotors from a precomputed half-angle cosine
and sine (the right rotor from the negated sine) and applies them. -/
def rotate2 (self axis : MultiVector R) (cos2 sin2 : R) : MultiVector R :=
  rotate3 self (rotor2 axis cos2 sin2) (rotor2 axis cos2 (-sin2))

/-- Method `rotor`: builds `rotor2` from the cosine and sine of `theta`. -/
noncomputable def rotor (axis : MultiVector ℝ) (theta : ℝ) : MultiVector ℝ :=
  rotor2 axis (Real.cos theta) (Real.sin theta)

/-- Method `rotate`: rotates `self` about `axis` by `theta` via `rotate2` at the
half angle. -/
noncomputable def rotate (self axis : MultiVector ℝ) (theta : ℝ) : MultiVector ℝ :=
  rotate2 self axis (Real.cos (theta / 2)) (Real.sin (theta / 2))

/-- Python `__getitem__` on an integer index: Python array indexing accepts
0..7 directly, maps -8..-1 to the component at index plus 8, and raises
IndexError (the IndexOutOfRange condition, modelled as `none`) otherwise. -/
def getItem (m : MultiVector R) (i : ℤ) : Option R :=
  if h : 0 ≤ i ∧ i < 8 then some (m.comp ⟨i.toNat, by omega⟩)
  else if h2 : -8 ≤ i ∧ i < 0 then some (m.comp ⟨(i + 8).toNat, by omega⟩)
  else none

/-- Write component `n` of the underlying array, leaving the other
components unchanged (array cell assignment at a valid index). -/
def setComp (m : MultiVector R) (n : ℕ) (x : R) : MultiVector R :=
  match n with
  | 0 => { m with real := x }
  | 1 => { m with vecx := x }
  | 2 => { m with vecy := x }
  | 3 => { m with vecz := x }
  | 4 => { m with axix := x }
  | 5 => { m with axiy := x }
  | 6 => { m with axiz := x }
  | 7 => { m with imag := x }
  | _ => m

/-- Python `__setitem__` on an integer key: Python array assignment accepts
0..7 directly, maps -8..-1 to index plus 8, and raises IndexError (the
IndexOutOfRange condition, modelled as `none`) otherwise. -/
def setItem (m : MultiVector R) (i : ℤ) (x : R) : Option (MultiVector R) :=
  if 0 ≤ i ∧ i < 8 then some (setComp m i.toNat x)
  else if -8 ≤ i ∧ i < 0 then some (setComp m (i + 8).toNat x)
  else none

/-- The function `sum8` agrees with the finite sum over `Fin 8`. -/
lemma sum8_eq_finset (f : Fin 8 → R) : sum8 f = ∑ j : Fin 8, f j := by
  rw [Fin.sum_univ_eight]
  simp [sum8]
  ring

/-- Components of `mkMV`. -/
lemma mkMV_comp (c : Fin 8 → R) (i : Fin 8) : (mkMV c).comp i = c i := by
  fin_cases i <;> rfl

/-- The component formula of the geometric product, as a double finite sum. -/
lemma mul_comp (a b : MultiVector R) (i : Fin 8) :
    (mul a b).comp i =
      ∑ j : Fin 8, ∑ k : Fin 8, a.comp j * b.comp k * (METRIC j k).comp i := by
  rw [mul, mkMV_comp]
  rw [sum8_eq_finset]
  refine Finset.sum_congr rfl (fun j hj => ?heq)
  rw [sum8_eq_finset]

/-- Multivectors with equal components are equal. -/
lemma ext_comp (a b : MultiVector R) (h : ∀ i, a.comp i = b.comp i) : a = b := by
  obtain ⟨a0, a1, a2, a3, a4, a5, a6, a7⟩ := a
  obtain ⟨b0, b1, b2, b3, b4, b5, b6, b7⟩ := b
  have h0 := h 0
  have h1 := h 1
  have h2 := h 2
  have h3 := h 3
  have h4 := h 4
  have h5 := h 5
  have h6 := h 6
  have h7 := h 7
  simp only [MultiVector.comp] at h0 h1 h2 h3 h4 h5 h6 h7
  simp [h0, h1, h2, h3, h4, h5, h6, h7]

/-- Components of `addMV`. -/
lemma addMV_comp (a b : MultiVector R) (i : Fin 8) :
    (addMV a b).comp i = a.comp i + b.comp i := by
  fin_cases i <;> rfl

/-- Components of `smulMV`. -/
lemma smulMV_comp (m : MultiVector R) (s : R) (i : Fin 8) :
    (smulMV m s).comp i = m.comp i * s := by
  fin_cases i <;> rfl

/-- Components of `ZERO`. -/
lemma comp_ZERO (i : Fin 8) : (ZERO : MultiVector R).comp i = 0 := by
  fin_cases i <;> rfl

/-- The geometric product distributes over `addMV` on the left. -/
lemma mul_addMV_left (a b c : MultiVector R) :
    mul (addMV a b) c = addMV (mul a c) (mul b c) := by
  refine ext_comp _ _ (fun i => ?hc)
  rw [addMV_comp, mul_comp, mul_comp, mul_comp]
  rw [← Finset.sum_add_distrib]
  refine Finset.sum_congr rfl (fun j hj => ?hj2)
  rw [← Finset.sum_add_distrib]
  refine Finset.sum_congr rfl (fun k hk => ?hk2)
  rw [addMV_comp]
  ring

/-- The geometric product distributes over `addMV` on the right. -/
lemma mul_addMV_right (a b c : MultiVector R) :
    mul a (addMV b c) = addMV (mul a b) (mul a c) := by
  refine ext_comp _ _ (fun i => ?hc)
  rw [addMV_comp, mul_comp, mul_comp, mul_comp]
  rw [← Finset.sum_add_distrib]
  refine Finset.sum_congr rfl (fun j hj => ?hj2)
  rw [← Finset.sum_add_distrib]
  refine Finset.sum_congr rfl (fun k hk => ?hk2)
  rw [addMV_comp]
  ring

/-- Scaling commutes with the geometric product on the left operand. -/
lemma mul_smulMV_left (a b : MultiVector R) (s : R) :
    mul (smulMV a s) b = smulMV (mul a b) s := by
  refine ext_comp _ _ (fun i => ?hc)
  rw [smulMV_comp, mul_comp, mul_comp, Finset.sum_mul]
  refine Finset.sum_congr rfl (fun j hj => ?hj2)
  rw [Finset.sum_mul]
  refine Finset.sum_congr rfl (fun k hk => ?hk2)
  rw [smulMV_comp]
  ring

/-- Scaling commutes with the geometric product on the right operand. -/
lemma mul_smulMV_right (a b : MultiVector R) (s : R) :
    mul a (smulMV b s) = smulMV (mul a b) s := by
  refine ext_comp _ _ (fun i => ?hc)
  rw [smulMV_comp, mul_comp, mul_comp, Finset.sum_mul]
  refine Finset.sum_congr rfl (fun j hj => ?hj2)
  rw [Finset.sum_mul]
  refine Finset.sum_congr rfl (fun k hk => ?hk2)
  rw [smulMV_comp]
  ring

/-- The geometric product of two unit basis multivectors is the
corresponding metric table entry. -/
lemma mul_basis (a b : MultiVector R) (j k : Fin 8)
    (ha : ∀ t, a.comp t = if t = j then 1 else 0)
    (hb : ∀ t, b.comp t = if t = k then 1 else 0) :
    mul a b = METRIC j k := by
  refine ext_comp _ _ (fun i => ?hc)
  rw [mul_comp]
  simp [ha, hb, ite_mul, zero_mul, one_mul, mul_ite, mul_zero, Finset.sum_ite_eq]

/-- The constant `ONE` as the indicator of index 0. -/
lemma comp_ONE (t : Fin 8) : (ONE : MultiVector R).comp t = if t = 0 then 1 else 0 := by
  fin_cases t <;> simp [ONE, MultiVector.comp]

/-- The constant `VECX` as the indicator of index 1. -/
lemma comp_VECX (t : Fin 8) : (VECX : MultiVector R).comp t = if t = 1 then 1 else 0 := by
  fin_cases t <;> simp [VECX, MultiVector.comp]

/-- The constant `VECY` as the indicator of index 2. -/
lemma comp_VECY (t : Fin 8) : (VECY : MultiVector R).comp t = if t = 2 then 1 else 0 := by
  fin_cases t <;> simp [VECY, MultiVector.comp]

/-- The constant `VECZ` as the indicator of index 3. -/
lemma comp_VECZ (t : Fin 8) : (VECZ : MultiVector R).comp t = if t = 3 then 1 else 0 := by
  fin_cases t <;> simp [VECZ, MultiVector.comp]

/-- The constant `AXIX` as the indicator of index 4. -/
lemma comp_AXIX (t : Fin 8) : (AXIX : MultiVector R).comp t = if t = 4 then 1 else 0 := by
  fin_cases t <;> simp [AXIX, MultiVector.comp]

/-- The constant `AXIZ` as the indicator of index 6. -/
lemma comp_AXIZ (t : Fin 8) : (AXIZ : MultiVector R).comp t = if t = 6 then 1 else 0 := by
  fin_cases t <;> simp [AXIZ, MultiVector.comp]

/-- The constant `IMAG` as the indicator of index 7. -/
lemma comp_IMAG (t : Fin 8) : (IMAG : MultiVector R).comp t = if t = 7 then 1 else 0 := by
  fin_cases t <;> simp [IMAG, MultiVector.comp]

/-- Claim C1: the metric table realises the designed signed Cayley table
of Cl(3,0); in particular the geometric product of the named unit basis
multivectors satisfies VECX * VECX = ONE, VECX * VECY = AXIX,
VECY * VECX = -AXIX, AXIX * AXIX = -ONE, IMAG * IMAG = -ONE and
VECX * VECY * VECZ = IMAG, each an exact component-by-component equality. -/
theorem claim_C1 :
    mul (VECX : MultiVector ℝ) VECX = ONE ∧
    mul (VECX : MultiVector ℝ) VECY = AXIX ∧
    mul (VECY : MultiVector ℝ) VECX = negMV AXIX ∧
    mul (AXIX : MultiVector ℝ) AXIX = negMV ONE ∧
    mul (IMAG : MultiVector ℝ) IMAG = negMV ONE ∧
    mul (mul (VECX : MultiVector ℝ) VECY) VECZ = IMAG := by
  refine ⟨?hxx, ?hxy, ?hyx, ?haa, ?hii, ?hxyz⟩
  case hxx =>
    rw [mul_basis VECX VECX 1 1 comp_VECX comp_VECX]
    rfl
  case hxy =>
    rw [mul_basis VECX VECY 1 2 comp_VECX comp_VECY]
    rfl
  case hyx =>
    rw [mul_basis VECY VECX 2 1 comp_VECY comp_VECX]
    rfl
  case haa =>
    rw [mul_basis AXIX AXIX 4 4 comp_AXIX comp_AXIX]
    rfl
  case hii =>
    rw [mul_basis IMAG IMAG 7 7 comp_IMAG comp_IMAG]
    rfl
  case hxyz =>
    rw [mul_basis VECX VECY 1 2 comp_VECX comp_VECY]
    have hm : (METRIC (1 : Fin 8) 2 : MultiVector ℝ) = AXIX := rfl
    rw [hm, mul_basis AXIX VECZ 4 3 comp_AXIX comp_VECZ]
    rfl

/-- Claim C2: component `i` of the geometric product `a * b` is the double
sum over `j` and `k` in 0..7 of `a[j] * b[k] * METRIC[j][k][i]` (the
operation is pure: the operands are values and are not modified). -/
theorem claim_C2 (a b : MultiVector ℝ) (i : Fin 8) :
    (mul a b).comp i =
      ∑ j : Fin 8, ∑ k : Fin 8, a.comp j * b.comp k * (METRIC j k).comp i :=
  mul_comp a b i

/-- Claim C8: multiplying a multivector by a right operand that is neither
a multivector nor a numeric scalar yields the failure result (the
UnsupportedOperand condition); a multivector operand gives the geometric
product and a numeric operand gives component-wise scaling. -/
theorem claim_C8 (a b : MultiVector ℝ) (s : ℝ) :
    mulPoly a Operand.other = none ∧
    mulPoly a (Operand.mv b) = some (mul a b) ∧
    mulPoly a (Operand.scalar s) = some (smulMV a s) :=
  ⟨rfl, rfl, rfl⟩

/-- Sandwiching `VECX` between the rotors built on `get_axis 0 0 1` with
cosine `c` and sine `s` gives the vector `(c*c - s*s, 0, 2*c*s)`: the
`axiz` bivector of this table is `e3*e1`, so it turns the x axis towards
the z axis. -/
lemma rotate2_vecx_axisz (c s : ℝ) :
    rotate2 (get_vector 1 0 0) (get_axis 0 0 1) c s =
      get_vector (c * c - s * s) 0 (2 * (c * s)) := by
  have hone : get_vector (1 : ℝ) 0 0 = VECX := by
    simp [get_vector, VECX]
  have hL : rotor2 (get_axis (0 : ℝ) 0 1) c s = addMV (smulMV ONE c) (smulMV AXIZ s) := by
    simp [rotor2, get_axis, addMV, smulMV, ONE, AXIZ, MultiVector.comp]
  have hR : rotor2 (get_axis (0 : ℝ) 0 1) c (-s) =
      addMV (smulMV ONE c) (smulMV AXIZ (-s)) := by
    simp [rotor2, get_axis, addMV, smulMV, ONE, AXIZ, MultiVector.comp]
  rw [rotate2, rotate3, hone, hL, hR]
  simp only [mul_addMV_left, mul_addMV_right, mul_smulMV_left, mul_smulMV_right]
  rw [mul_basis ONE VECX 0 1 comp_ONE comp_VECX]
  rw [mul_basis AXIZ VECX 6 1 comp_AXIZ comp_VECX]
  have h01 : (METRIC (0 : Fin 8) 1 : MultiVector ℝ) = VECX := rfl
  have h61 : (METRIC (6 : Fin 8) 1 : MultiVector ℝ) = VECZ := rfl
  rw [h01, h61]
  rw [mul_basis VECX ONE 1 0 comp_VECX comp_ONE]
  rw [mul_basis VECX AXIZ 1 6 comp_VECX comp_AXIZ]
  rw [mul_basis VECZ ONE 3 0 comp_VECZ comp_ONE]
  rw [mul_basis VECZ AXIZ 3 6 comp_VECZ comp_AXIZ]
  have h10 : (METRIC (1 : Fin 8) 0 : MultiVector ℝ) = VECX := rfl
  have h16 : (METRIC (1 : Fin 8) 6 : MultiVector ℝ) = negMV VECZ := rfl
  have h30 : (METRIC (3 : Fin 8) 0 : MultiVector ℝ) = VECZ := rfl
  have h36 : (METRIC (3 : Fin 8) 6 : MultiVector ℝ) = VECX := rfl
  rw [h10, h16, h30, h36]
  refine ext_comp _ _ (fun i => ?hc)
  fin_cases i <;>
    simp [addMV, smulMV, negMV, VECX, VECZ, get_vector, MultiVector.comp] <;>
    ring

/-- Rotating `get_vector 1 0 0` about `get_axis 0 0 1` by a right angle
lands exactly on `get_vector 0 0 1`. -/
lemma rotate_vecx_axisz_pi2 :
    rotate (get_vector 1 0 0) (get_axis 0 0 1) (Real.pi / 2) = get_vector 0 0 1 := by
  rw [rotate]
  have hhalf : Real.pi / 2 / 2 = Real.pi / 4 := by ring
  rw [hhalf, Real.cos_pi_div_four, Real.sin_pi_div_four, rotate2_vecx_axisz]
  have hs : Real.sqrt 2 / 2 * (Real.sqrt 2 / 2) = 1 / 2 := by
    rw [div_mul_div_comm, Real.mul_self_sqrt (by norm_num)]
    norm_num
  rw [hs]
  norm_num

/-- Claim C3 fails on the code: the stated rotation does not produce
`get_vector 0 1 0` (it produces `get_vector 0 0 1`, as the y component of
the result is 0, not 1). -/
theorem claim_C3_cex :
    ¬ rotate (get_vector 1 0 0) (get_axis 0 0 1) (Real.pi / 2) = get_vector 0 1 0 := by
  intro h
  have h2 : get_vector (0 : ℝ) 0 1 = get_vector 0 1 0 :=
    rotate_vecx_axisz_pi2.symm.trans h
  have h3 := congrArg MultiVector.vecy h2
  simp [get_vector] at h3

/-- Claim C3 (amended): rotating `get_vector 1 0 0` by `pi/2` about
`get_axis 0 0 1` via `rotate` yields exactly `get_vector 0 0 1`: the
vector part is (0,0,1) and all other components are zero. -/
theorem claim_C3 :
    rotate (get_vector 1 0 0) (get_axis 0 0 1) (Real.pi / 2) = get_vector 0 0 1 :=
  rotate_vecx_axisz_pi2

/-- Claim C4: `rotate self axis theta` is the half-angle sandwich
`(L * self) * R` with `L = rotor axis (theta/2)` and
`R = rotor axis (-(theta/2))` (the right rotor arising from the negated
half-angle sine), and it coincides with
`rotate2 self axis (cos (theta/2)) (sin (theta/2))` and with
`rotate3 self L R`. -/
theorem claim_C4 (self axis : MultiVector ℝ) (theta : ℝ) :
    rotate self axis theta =
      mul (mul (rotor axis (theta / 2)) self) (rotor axis (-(theta / 2))) ∧
    rotate self axis theta =
      rotate2 self axis (Real.cos (theta / 2)) (Real.sin (theta / 2)) ∧
    rotate self axis theta =
      rotate3 self (rotor axis (theta / 2)) (rotor axis (-(theta / 2))) := by
  have hr : rotor axis (-(theta / 2)) =
      rotor2 axis (Real.cos (theta / 2)) (-Real.sin (theta / 2)) := by
    rw [rotor, Real.cos_neg, Real.sin_neg]
  refine ⟨?hs, rfl, ?hr3⟩
  case hs =>
    rw [hr, rotor]
    rfl
  case hr3 =>
    rw [hr, rotor]
    rfl

/-- Claim C5: `rotor axis theta` has scalar component `cos theta`,
pseudovector components `axis[4] * sin theta`, `axis[5] * sin theta` and
`axis[6] * sin theta`, and zero vector and pseudoscalar components; and
only components 4, 5, 6 of the axis argument influence the result. -/
theorem claim_C5 (axis axis2 : MultiVector ℝ) (theta : ℝ)
    (h4 : axis.comp 4 = axis2.comp 4) (h5 : axis.comp 5 = axis2.comp 5)
    (h6 : axis.comp 6 = axis2.comp 6) :
    rotor axis theta =
      ⟨Real.cos theta, 0, 0, 0, axis.comp 4 * Real.sin theta,
        axis.comp 5 * Real.sin theta, axis.comp 6 * Real.sin theta, 0⟩ ∧
    rotor axis theta = rotor axis2 theta := by
  refine ⟨rfl, ?hsame⟩
  rw [rotor, rotor, rotor2, rotor2, h4, h5, h6]

/-- Witness for claim C5: concrete axes agreeing on components 4, 5, 6
(but nowhere else) produce the stated rotor form and equal rotors. -/
theorem claim_C5_witness :
    (get_axis (1 : ℝ) 2 3).comp 4 = (⟨9, 9, 9, 9, 1, 2, 3, 9⟩ : MultiVector ℝ).comp 4 ∧
    (get_axis (1 : ℝ) 2 3).comp 5 = (⟨9, 9, 9, 9, 1, 2, 3, 9⟩ : MultiVector ℝ).comp 5 ∧
    (get_axis (1 : ℝ) 2 3).comp 6 = (⟨9, 9, 9, 9, 1, 2, 3, 9⟩ : MultiVector ℝ).comp 6 ∧
    (rotor (get_axis 1 2 3) 0 =
      ⟨Real.cos 0, 0, 0, 0, (get_axis (1 : ℝ) 2 3).comp 4 * Real.sin 0,
        (get_axis (1 : ℝ) 2 3).comp 5 * Real.sin 0,
        (get_axis (1 : ℝ) 2 3).comp 6 * Real.sin 0, 0⟩ ∧
      rotor (get_axis 1 2 3) 0 = rotor ⟨9, 9, 9, 9, 1, 2, 3, 9⟩ 0) :=
  ⟨rfl, rfl, rfl, claim_C5 (get_axis 1 2 3) ⟨9, 9, 9, 9, 1, 2, 3, 9⟩ 0 rfl rfl rfl⟩

/-- Component formula for the left fold underlying `linear_combination`:
folding `addMV` over the scaled zipped pairs adds the indexed sum of
`comps[t] * system[t]` to the accumulator, component by component. -/
lemma lc_fold_comp :
    ∀ (comps : List R) (system : List (MultiVector R)) (acc : MultiVector R)
      (i : Fin 8), system.length = comps.length →
      (((comps.zip system).map (fun p => smulMV p.2 p.1)).foldl addMV acc).comp i =
        acc.comp i +
          ∑ t ∈ Finset.range comps.length,
            comps.getD t 0 * (system.getD t ZERO).comp i
  | [], system, acc, i, h => by
    simp
  | c :: cs, [], acc, i, h => by
    simp at h
  | c :: cs, s :: ss, acc, i, h => by
    have ih := lc_fold_comp cs ss (addMV acc (smulMV s c)) i (by simpa using h)
    simp only [List.zip_cons_cons, List.map_cons, List.foldl_cons, List.length_cons]
    rw [ih, Finset.sum_range_succ']
    simp only [List.getD_cons_succ, List.getD_cons_zero, addMV_comp, smulMV_comp]
    ring

/-- Claim C6: `linear_combination` on sequences of different lengths
yields the failure result (the LengthMismatch condition) rather than a
multivector; on sequences of equal length it returns the sum over `t` of
`comps[t] * system[t]`. -/
theorem claim_C6 (system : List (MultiVector ℝ)) (comps : List ℝ) :
    (system.length ≠ comps.length → linear_combination system comps = none) ∧
    (system.length = comps.length →
      ∃ r, linear_combination system comps = some r ∧
        ∀ i : Fin 8, r.comp i =
          ∑ t ∈ Finset.range comps.length,
            comps.getD t 0 * (system.getD t ZERO).comp i) := by
  constructor
  · intro h
    simp [linear_combination, h]
  · intro h
    refine ⟨((comps.zip system).map (fun p => smulMV p.2 p.1)).foldl addMV ZERO,
      by simp [linear_combination, h], fun i => ?hc⟩
    rw [lc_fold_comp comps system ZERO i h, comp_ZERO, zero_add]

/-- Witness for claim C6: a concrete mismatched pair fails, and a concrete
matched pair returns the indexed sum. -/
theorem claim_C6_witness :
    ([ONE] : List (MultiVector ℝ)).length ≠ ([] : List ℝ).length ∧
    linear_combination ([ONE] : List (MultiVector ℝ)) ([] : List ℝ) = none ∧
    (∃ r, linear_combination ([VECX] : List (MultiVector ℝ)) ([2] : List ℝ) = some r ∧
      ∀ i : Fin 8, r.comp i =
        ∑ t ∈ Finset.range ([(2 : ℝ)]).length,
          [(2 : ℝ)].getD t 0 * (([VECX] : List (MultiVector ℝ)).getD t ZERO).comp i) :=
  ⟨by decide, (claim_C6 [ONE] []).1 (by decide), (claim_C6 [VECX] [2]).2 rfl⟩

/-- Claim C7: the linear combination of the vector basis frame with
coefficients `x, y, z` is exactly `get_vector x y z`. -/
theorem claim_C7 (x y z : ℝ) :
    linear_combination VECTOR_BASIS [x, y, z] = some (get_vector x y z) := by
  rw [linear_combination]
  rw [if_pos (by simp [VECTOR_BASIS])]
  refine congrArg some ?hsum
  refine ext_comp _ _ (fun i => ?hc)
  simp only [VECTOR_BASIS, List.zip_cons_cons, List.zip_nil_left, List.map_cons,
    List.map_nil, List.foldl_cons, List.foldl_nil]
  fin_cases i <;>
    simp [addMV, smulMV, ZERO, VECX, VECY, VECZ, get_vector, MultiVector.comp]

/-- Claim C9 fails on the code: an integer index outside 0..7 does not
always fail, since Python sequence indexing accepts -8..-1; reading index
-1 of `ZERO` succeeds and returns component 7. -/
theorem claim_C9_cex :
    ¬ (∀ (v : MultiVector ℝ) (i : ℤ), (i < 0 ∨ 7 < i) → getItem v i = none) := by
  intro h
  have h2 := h ZERO (-1) (Or.inl (by norm_num))
  rw [getItem] at h2
  rw [dif_neg (by omega), dif_pos (by omega)] at h2
  exact Option.some_ne_none _ h2

/-- Claim C9 (amended): an integer index outside -8..7 fails with the
IndexOutOfRange condition, and an index within 0..7 returns component `i`. -/
theorem claim_C9 (v : MultiVector ℝ) (i : ℤ) :
    (i < -8 ∨ 7 < i → getItem v i = none) ∧
    (∀ h0 : 0 ≤ i, ∀ h7 : i ≤ 7, getItem v i = some (v.comp ⟨i.toNat, by omega⟩)) := by
  constructor
  · intro h
    rw [getItem, dif_neg (by omega), dif_neg (by omega)]
  · intro h0 h7
    rw [getItem, dif_pos (by omega)]

/-- Witness for claim C9: index 100 fails and index 2 reads component 2. -/
theorem claim_C9_witness :
    ((100 : ℤ) < -8 ∨ (7 : ℤ) < 100) ∧
    getItem (get_vector (1 : ℝ) 2 3) 100 = none ∧
    (0 : ℤ) ≤ 2 ∧ (2 : ℤ) ≤ 7 ∧
    getItem (get_vector (1 : ℝ) 2 3) 2 =
      some ((get_vector (1 : ℝ) 2 3).comp ⟨(2 : ℤ).toNat, by norm_num⟩) :=
  ⟨Or.inr (by norm_num),
    (claim_C9 (get_vector 1 2 3) 100).1 (Or.inr (by norm_num)),
    by norm_num, by norm_num,
    (claim_C9 (get_vector 1 2 3) 2).2 (by norm_num) (by norm_num)⟩

/-- The function `setComp` at a valid index writes that component and leaves the other
components unchanged. -/
lemma setComp_comp (m : MultiVector R) (n : ℕ) (hn : n < 8) (x : R) (t : Fin 8) :
    (setComp m n x).comp t = if (t : ℕ) = n then x else m.comp t := by
  interval_cases n <;> fin_cases t <;> simp [setComp, MultiVector.comp]

/-- Claim C10: for an integer index `i` in -8..-1, the indexed read
succeeds and returns component `i + 8`, and the indexed write succeeds and
sets component `i + 8` to the written value, leaving the others unchanged. -/
theorem claim_C10 (v : MultiVector ℝ) (i : ℤ) (x : ℝ)
    (h1 : -8 ≤ i) (h2 : i ≤ -1) :
    getItem v i = some (v.comp ⟨(i + 8).toNat, by omega⟩) ∧
    (∃ w, setItem v i x = some w ∧
      ∀ t : Fin 8, w.comp t = if (t : ℕ) = (i + 8).toNat then x else v.comp t) := by
  constructor
  · rw [getItem, dif_neg (by omega), dif_pos (by omega)]
  · refine ⟨setComp v (i + 8).toNat x, ?hset, ?hcomp⟩
    case hset =>
      rw [setItem, if_neg (by omega), if_pos (by omega)]
    case hcomp =>
      intro t
      exact setComp_comp v (i + 8).toNat (by omega) x t

/-- Witness for claim C10: index -3 reads and writes component 5. -/
theorem claim_C10_witness :
    (-8 : ℤ) ≤ -3 ∧ (-3 : ℤ) ≤ -1 ∧
    (getItem (get_vector (1 : ℝ) 2 3) (-3) =
      some ((get_vector (1 : ℝ) 2 3).comp ⟨((-3 : ℤ) + 8).toNat, by norm_num⟩) ∧
    (∃ w, setItem (get_vector (1 : ℝ) 2 3) (-3) 5 = some w ∧
      ∀ t : Fin 8, w.comp t =
        if (t : ℕ) = ((-3 : ℤ) + 8).toNat then 5 else (get_vector (1 : ℝ) 2 3).comp t)) :=
  ⟨by norm_num, by norm_num,
    claim_C10 (get_vector 1 2 3) (-3) 5 (by norm_num) (by norm_num)⟩

end MultiVectors
